import Mathlib

/-!
Verification of the `ConcurrentProcessor` utility of
`src/blockether_foundation/concurrency.py`.

The development shallowly embeds the processor:
* `Py` models the dynamically-typed values a transform may return
  (`None`, strings, lists, tuples, other scalars).
* `PyErr` models Python exceptions: ordinary classes (with a kind, an
  `Exception`-vs-`BaseException`-only flag and an optional `__cause__`),
  tenacity's `RetryError` wrapper (whose `__cause__` is the last attempt's
  exception, because tenacity raises it via `raise retry_exc from
  fut.exception()`), and `BaseExceptionGroup`.
* The per-item pipeline (`wrapped_call`, `process_with_retry`,
  `limiter_reraise`, `process_item`) is deterministic and schedule-free.
* Concurrent execution (`machine_step`, `run_machine`, `process`) is a
  small-step machine over task statuses, an explicit semaphore counter,
  the index-keyed results dictionary and the first raised error, driven by
  an arbitrary scheduler choice list.
-/

/-- A dynamically typed Python value, as far as `_wrapped_call`
(concurrency.py lines 177-188) distinguishes shapes: `None`, `str`,
`list`, `tuple`, and anything else (modelled as an integer scalar or an
opaque object identified by a tag). -/
inductive Py where
  | none : Py
  | str (s : String) : Py
  | int (n : Int) : Py
  | list (xs : List Py) : Py
  | tuple (xs : List Py) : Py
  | obj (tag : Nat) : Py

/-- A Python exception value, as far as `_process_concurrently` inspects
exceptions: an ordinary exception has a class `kind`, a flag recording
whether its class derives from `Exception` (rather than only
`BaseException`, as for `KeyboardInterrupt`/`SystemExit`), and an optional
`__cause__`.  `retryErr last` is tenacity's `RetryError` raised after
`stop_after_attempt`, whose `__cause__` is the final attempt's exception
`last`.  `excGroup f rest` is a (nonempty) `BaseExceptionGroup` with
members `f :: rest`. -/
inductive PyErr where
  | exc (kind : Nat) (isExc : Bool) (cause : Option PyErr) : PyErr
  | retryErr (last : PyErr) : PyErr
  | excGroup (first : PyErr) (rest : List PyErr) : PyErr

mutual
/-- `isinstance(e, Exception)`.  `RetryError` derives from `Exception`;
a `BaseExceptionGroup` is the `Exception`-derived `ExceptionGroup`
exactly when every member derives from `Exception`. -/
def PyErr.isException : PyErr → Bool
  | .exc _ b _ => b
  | .retryErr _ => true
  | .excGroup f rest => f.isException && PyErr.allException rest
/-- All members of a list of exceptions derive from `Exception`. -/
def PyErr.allException : List PyErr → Bool
  | [] => true
  | e :: es => e.isException && PyErr.allException es
end

/-- `e.__cause__`: an ordinary exception carries its recorded cause;
tenacity's `RetryError` is raised via `raise retry_exc from
fut.exception()`, so its cause is the last attempt's exception; a freshly
raised exception group has no cause. -/
def PyErr.causeOf : PyErr → Option PyErr
  | .exc _ _ c => c
  | .retryErr last => some last
  | .excGroup _ _ => Option.none

/-- The class of an ordinary exception; `RetryError` and groups have
library classes that never coincide with a user-configured kind. -/
def PyErr.kindOf : PyErr → Option Nat
  | .exc k _ _ => some k
  | _ => Option.none

/-- The configured `self._retry_exceptions`: either the fallback
`(Exception,)` (matching every `Exception`-derived error) or a nonempty
tuple of specific `Exception`-subclass kinds. -/
inductive RetrySpec where
  | allExceptions : RetrySpec
  | kinds (ks : List Nat) : RetrySpec
deriving DecidableEq

/-- `retry_if_exception_type(self._retry_exceptions)`: an isinstance
check against the configured tuple.  The constructor's annotation
`tuple[type[Exception], ...]` makes every configured class an `Exception`
subclass, so an error that does not derive from `Exception` never
matches. -/
def retryCheck : RetrySpec → PyErr → Bool
  | .allExceptions, e => e.isException
  | .kinds ks, e => e.isException && (match e.kindOf with
      | some k => ks.contains k
      | Option.none => false)

/-- `self._retry_exceptions = retry_exceptions or (Exception,)`
(concurrency.py line 75): `None` and the falsy empty tuple both fall back
to `(Exception,)`. -/
def mkRetryExceptions : Option (List Nat) → RetrySpec
  | Option.none => .allExceptions
  | some [] => .allExceptions
  | some ks => .kinds ks

/-- The processor configuration recorded by `ConcurrentProcessor.__init__`
(concurrency.py lines 53-75).  Wait times are in milliseconds. -/
structure ConcurrentProcessor where
  concurrency : Nat := 5
  max_retries : Nat := 3
  retry_min_wait : Nat := 3500
  retry_max_wait : Nat := 15000
  retry_exceptions : RetrySpec := .allExceptions

/-- `ConcurrentProcessor.__init__`: stores the parameters, replacing a
`None` or empty `retry_exceptions` tuple by `(Exception,)`. -/
def ConcurrentProcessor.init (concurrency max_retries retry_min_wait retry_max_wait : Nat)
    (retry_exceptions : Option (List Nat)) : ConcurrentProcessor :=
  ⟨concurrency, max_retries, retry_min_wait, retry_max_wait, mkRetryExceptions retry_exceptions⟩

/-- One invocation of the caller's async transform on an item either
returns a value or raises. -/
inductive AttemptOutcome (α : Type) where
  | ok (v : α) : AttemptOutcome α
  | raise (e : PyErr) : AttemptOutcome α

/-- `_wrapped_call` (concurrency.py lines 177-188): normalize a transform
return value to a sequence.  `None` becomes `[]`; a string is one scalar
item (never decomposed into characters); a list or tuple is used as-is;
any other value is wrapped in a one-element list. -/
def wrapped_call : Py → List Py
  | .none => []
  | .str s => [.str s]
  | .list xs => xs
  | .tuple xs => xs
  | r => [r]

/-- What one complete per-item run of the retry-wrapped transform did:
its final outcome, how many times the transform was invoked (`calls`,
1-based count of attempts), and the backoff waits performed between
attempts (milliseconds). -/
structure ItemRun (α : Type) where
  outcome : Except PyErr α
  calls : Nat
  waits : List Nat

/-- `wait_exponential(min=…, max=…)` of tenacity, scaled to milliseconds:
`max(max(0, min), min(multiplier * 2 ** attempt_number, max))` with the
default multiplier of one second. -/
def wait_exponential (wmin wmax attempt : Nat) : Nat :=
  max wmin (min (1000 * 2 ^ attempt) wmax)

/-- The tenacity retry loop built by `retry_decorator` (concurrency.py
lines 98-103) around one item's transform, with `attempt` the 1-based
number of the attempt about to run and `remaining` how many further
attempts `stop_after_attempt(max_retries)` still allows.  A successful
attempt returns its value.  A raised error that fails the
`retry_if_exception_type` check is re-raised as itself.  A retryable
error with no attempts remaining makes tenacity raise
`RetryError` from the last exception.  Otherwise the loop waits
`wait_exponential` and retries. -/
def retry_go (spec : RetrySpec) (wmin wmax : Nat) (f : Nat → AttemptOutcome α) :
    Nat → Nat → List Nat → ItemRun α
  | attempt, remaining, waits =>
    match f attempt with
    | .ok v => ⟨.ok v, attempt, waits⟩
    | .raise e =>
      if retryCheck spec e then
        match remaining with
        | 0 => ⟨.error (.retryErr e), attempt, waits⟩
        | r + 1 =>
          retry_go spec wmin wmax f (attempt + 1) r (waits ++ [wait_exponential wmin wmax attempt])
      else ⟨.error e, attempt, waits⟩

/-- `process_with_retry` (concurrency.py lines 106-112): the transform
under the configured retry decorator.  Attempt 1 runs immediately;
`stop_after_attempt(max_retries)` allows `max_retries` total attempts. -/
def process_with_retry (cfg : ConcurrentProcessor) (f : Nat → AttemptOutcome α) : ItemRun α :=
  retry_go cfg.retry_exceptions cfg.retry_min_wait cfg.retry_max_wait f 1 (cfg.max_retries - 1) []

/-- The `except BaseException` handler of `process_with_limiter`
(concurrency.py lines 124-136): a `BaseExceptionGroup` is unwrapped to
its members, and the loop re-raises at its first member; an
`Exception`-derived member with a `__cause__` is replaced by that cause,
every other member is re-raised as itself. -/
def limiter_reraise (e : PyErr) : PyErr :=
  let first := match e with
    | .excGroup f _ => f
    | _ => e
  if first.isException then
    match first.causeOf with
    | some c => c
    | Option.none => first
  else first

/-- Per successful attempt, `processor_fn` is `_wrapped_call` composed
with the caller's transform, so each return value is normalized before
the retry layer sees it. -/
def wrapped_attempts (f : Nat → AttemptOutcome Py) (n : Nat) : AttemptOutcome (List Py) :=
  match f n with
  | .ok r => .ok (wrapped_call r)
  | .raise e => .raise e

/-- One item's complete journey through `process_with_limiter`
(concurrency.py lines 120-138): run the retry-wrapped, normalization-
wrapped transform; on failure the handler re-raises the unwrapped
error. -/
def process_item (cfg : ConcurrentProcessor) (f : Nat → AttemptOutcome Py) : ItemRun (List Py) :=
  let r := process_with_retry cfg (wrapped_attempts f)
  ⟨r.outcome.mapError limiter_reraise, r.calls, r.waits⟩

/-- The behaviour of one input item under the caller's transform: what
the `n`-th invocation of the transform on this item does (returns a raw
`Py` value or raises), together with how many scheduler steps the
invocation spends suspended while running (modelling the awaits inside
the transform). -/
structure ItemBeh where
  attempts : Nat → AttemptOutcome Py
  dur : Nat

/-- The status of one `asyncio.create_task(process_with_limiter(idx,
item))` task: not yet past `async with semaphore` (`pending`), holding a
semaphore slot with `left` suspension steps still to run (`running`), or
finished with the slot released (`done`). -/
inductive TStatus where
  | pending : TStatus
  | running (left : Nat) : TStatus
  | done : TStatus

/-- Whether a task currently holds a semaphore slot, i.e. its transform
is executing rather than merely scheduled. -/
def TStatus.isRunning : TStatus → Bool
  | .running _ => true
  | _ => false

/-- Whether a task has finished. -/
def TStatus.isDone : TStatus → Bool
  | .done => true
  | _ => false

/-- The shared state of one `_process_concurrently` call: the
`asyncio.Semaphore` counter, each task's status, `results_dict` (the
index-keyed slot map, `none` while unset), and the first exception any
task raised (which `asyncio.gather` will propagate). -/
structure MState where
  sem : Nat
  status : List TStatus
  results_dict : List (Option (List Py))
  firstErr : Option PyErr

/-- How many tasks are currently executing past the admission gate. -/
def countRunning (l : List TStatus) : Nat :=
  l.countP (fun t => t.isRunning)

/-- What `process_with_limiter` resolves item `i` to, schedule-free:
the limiter-level outcome of its retry-wrapped, normalized transform. -/
def itemOutcome (cfg : ConcurrentProcessor) (b : ItemBeh) : Except PyErr (List Py) :=
  (process_item cfg b.attempts).outcome

/-- One scheduler step granted to task `i` (the body of
`process_with_limiter`, concurrency.py lines 120-138): a pending task
acquires the semaphore if a slot is free and starts executing; a running
task either consumes one suspension step or, when its transform is done,
records its result in `results_dict` (on success) or raises (on failure,
remembered as the first error if none was raised yet) and releases its
slot; a finished or blocked task does nothing. -/
def machine_step (outs : List (Except PyErr (List Py))) (durs : List Nat)
    (s : MState) (i : Nat) : MState :=
  match s.status[i]? with
  | some .pending =>
    if s.sem = 0 then s
    else { s with sem := s.sem - 1, status := s.status.set i (.running (durs.getD i 0)) }
  | some (.running 0) =>
    match outs.getD i (.ok []) with
    | .ok v =>
      { s with sem := s.sem + 1, status := s.status.set i .done,
               results_dict := s.results_dict.set i (some v) }
    | .error e =>
      { s with sem := s.sem + 1, status := s.status.set i .done,
               firstErr := match s.firstErr with
                 | some e0 => some e0
                 | Option.none => some e }
  | some (.running (k + 1)) => { s with status := s.status.set i (.running k) }
  | _ => s

/-- The state right after the tasks are created (concurrency.py lines
140-142): the semaphore holds `concurrency` slots, every task is pending,
no result slot is filled, no exception was raised. -/
def init_state (cfg : ConcurrentProcessor) (n : Nat) : MState :=
  ⟨cfg.concurrency, List.replicate n .pending, List.replicate n Option.none, Option.none⟩

/-- Run the scheduler: each entry of `sched` grants one step to the task
with that index.  The interleaving is arbitrary — any choice list is a
possible execution. -/
def run_machine (cfg : ConcurrentProcessor) (behs : List ItemBeh) (sched : List Nat) : MState :=
  sched.foldl
    (machine_step (behs.map (itemOutcome cfg)) (behs.map (fun b => b.dur)))
    (init_state cfg behs.length)

/-- Every task has finished, i.e. `asyncio.gather` has returned or
raised. -/
def allDone (s : MState) : Bool :=
  s.status.all (fun t => t.isDone)

/-- The final filter `[r for r in flattened if r is not None]`
(concurrency.py line 152). -/
def filterNotNone (l : List Py) : List Py :=
  l.filter (fun v => match v with | Py.none => false | _ => true)

/-- The whole `process` call (concurrency.py lines 94-95 and 140-154)
under a given scheduler interleaving: an empty input returns `[]` before
any task exists; otherwise the tasks run to `gather`, which re-raises the
first exception any task raised, or collects `results_dict` in input
order, flattens, and filters out `None` elements. -/
def ConcurrentProcessor.process (cfg : ConcurrentProcessor) (behs : List ItemBeh)
    (sched : List Nat) : Except PyErr (List Py) :=
  if behs.isEmpty then .ok []
  else
    let s := run_machine cfg behs sched
    match s.firstErr with
    | some e => .error e
    | Option.none =>
      .ok (filterNotNone (s.results_dict.map (fun o => o.getD [])).flatten)

/-- The entry of `results_dict` a finished task leaves behind: its value
on success, still unset on failure. -/
def okToDict : Except PyErr (List Py) → Option (List Py)
  | .ok v => some v
  | .error _ => Option.none

/-- Whether an outcome is a success. -/
def isOkB : Except PyErr (List Py) → Bool
  | .ok _ => true
  | .error _ => false

/-- An item's contribution to the final output: its normalized result
sequence with `None` elements removed (junk on a failed item). -/
def itemContribution (cfg : ConcurrentProcessor) (b : ItemBeh) : List Py :=
  match itemOutcome cfg b with
  | .ok v => filterNotNone v
  | .error _ => []

/-- How many times the caller's transform runs in total across all
items. -/
def totalCalls (cfg : ConcurrentProcessor) (behs : List ItemBeh) : Nat :=
  (behs.map (fun b => (process_item cfg b.attempts).calls)).sum

/-- The value a finished, successful item contributed to `results_dict`;
the empty list stands in for a failed item, whose slot is never read
because `gather` raises first. -/
def okValueD : Except PyErr (List Py) → List Py
  | .ok v => v
  | .error _ => []

/-- `isinstance(result, (list, tuple))` (concurrency.py line 185). -/
def isListOrTuple : Py → Bool
  | .list _ => true
  | .tuple _ => true
  | _ => false

/-- The machine invariant, maintained through every scheduler step:
lengths of the status and dictionary lists match the number of items, the
semaphore accounting `sem + running = concurrency` holds, a successfully
finished task has its value in `results_dict`, any recorded first error
is some item's outcome, and while no error was recorded every finished
task succeeded. -/
structure MachineInv (c : Nat) (outs : List (Except PyErr (List Py))) (s : MState) : Prop where
  hst : s.status.length = outs.length
  hdl : s.results_dict.length = outs.length
  hsem : s.sem + countRunning s.status = c
  hdone : ∀ j v, s.status[j]? = some .done → outs.getD j (.ok []) = .ok v →
    s.results_dict[j]? = some (some v)
  herr : ∀ e, s.firstErr = some e → ∃ j : Nat, outs[j]? = some (Except.error e)
  hnoerr : s.firstErr = Option.none → ∀ j, s.status[j]? = some .done →
    isOkB (outs.getD j (.ok [])) = true

@[simp] theorem TStatus.isRunning_pending : TStatus.pending.isRunning = false := rfl

@[simp] theorem TStatus.isRunning_running (k : Nat) : (TStatus.running k).isRunning = true := rfl

@[simp] theorem TStatus.isRunning_done : TStatus.done.isRunning = false := rfl

theorem machineInv_init (cfg : ConcurrentProcessor) (outs : List (Except PyErr (List Py))) :
    MachineInv cfg.concurrency outs (init_state cfg outs.length) := by
  have hzero : countRunning (List.replicate outs.length TStatus.pending) = 0 := by
    refine List.countP_eq_zero.mpr ?_
    intro a ha
    rw [List.eq_of_mem_replicate ha]
    simp
  refine ⟨?_, ?_, ?_, ?_, ?_, ?_⟩
  · simp [init_state]
  · simp [init_state]
  · simp [init_state, hzero]
  · intro j v hj
    rw [init_state] at hj
    simp only [List.getElem?_replicate] at hj
    split at hj
    · exact absurd (Option.some.inj hj) (by simp)
    · exact absurd hj (by simp)
  · intro e he
    rw [init_state] at he
    exact absurd he (by simp)
  · intro h j hj
    rw [init_state] at hj
    simp only [List.getElem?_replicate] at hj
    split at hj
    · exact absurd (Option.some.inj hj) (by simp)
    · exact absurd hj (by simp)

theorem machineInv_step (c : Nat) (outs : List (Except PyErr (List Py))) (durs : List Nat)
    (s : MState) (i : Nat) (h : MachineInv c outs s) :
    MachineInv c outs (machine_step outs durs s i) := by
  obtain ⟨hst, hdl, hsem, hdone, herr, hnoerr⟩ := h
  unfold machine_step
  split
  case _ heq =>
    -- pending task
    split
    case isTrue => exact ⟨hst, hdl, hsem, hdone, herr, hnoerr⟩
    case isFalse hs0 =>
      obtain ⟨hlt, hget⟩ := List.getElem?_eq_some_iff.mp heq
      refine ⟨by simpa using hst, hdl, ?_, ?_, herr, ?_⟩
      · simp only [countRunning] at hsem ⊢
        rw [List.countP_set _ _ _ _ hlt, hget]
        simp
        omega
      · intro j v hj hv
        by_cases hij : i = j
        · subst hij
          rw [List.getElem?_set] at hj
          simp [hlt] at hj
        · rw [List.getElem?_set_ne hij] at hj
          exact hdone j v hj hv
      · intro hfe j hj
        by_cases hij : i = j
        · subst hij
          rw [List.getElem?_set] at hj
          simp [hlt] at hj
        · rw [List.getElem?_set_ne hij] at hj
          exact hnoerr hfe j hj
  case _ heq =>
    -- running task with zero steps left: it finishes now
    obtain ⟨hlt, hget⟩ := List.getElem?_eq_some_iff.mp heq
    have hltd : i < s.results_dict.length := by omega
    have hlto : i < outs.length := by omega
    have houtsi : outs[i]? = some (outs.getD i (.ok [])) := by
      simp [List.getD_eq_getElem?_getD, List.getElem?_eq_getElem hlto]
    have hpos : 0 < countRunning s.status := by
      refine List.countP_pos_iff.mpr ⟨s.status[i], List.getElem_mem hlt, ?_⟩
      rw [hget]; rfl
    split
    case _ v houts =>
      -- success: record the result, release the slot
      refine ⟨by simpa using hst, by simpa using hdl, ?_, ?_, herr, ?_⟩
      · simp only [countRunning] at hsem hpos ⊢
        rw [List.countP_set _ _ _ _ hlt, hget]
        simp
        omega
      · intro j w hj hw
        by_cases hij : i = j
        · subst hij
          rw [houts] at hw
          rw [List.getElem?_set]
          simp only [hltd, if_pos, if_true, Option.some.injEq]
          simp [Except.ok.inj hw]
        · rw [List.getElem?_set_ne hij] at hj
          rw [List.getElem?_set_ne hij]
          exact hdone j w hj hw
      · intro hfe j hj
        by_cases hij : i = j
        · subst hij
          rw [houts]
          rfl
        · rw [List.getElem?_set_ne hij] at hj
          exact hnoerr hfe j hj
    case _ e houts =>
      -- failure: the task raises; gather remembers the first error
      refine ⟨by simpa using hst, hdl, ?_, ?_, ?_, ?_⟩
      · simp only [countRunning] at hsem hpos ⊢
        rw [List.countP_set _ _ _ _ hlt, hget]
        simp
        omega
      · intro j w hj hw
        by_cases hij : i = j
        · subst hij
          rw [houts] at hw
          exact absurd hw (by simp)
        · rw [List.getElem?_set_ne hij] at hj
          exact hdone j w hj hw
      · intro e' he'
        simp only at he'
        rcases hfe : s.firstErr with _ | e0
        · rw [hfe] at he'
          simp only [Option.some.injEq] at he'
          refine ⟨i, ?_⟩
          rw [houtsi, houts, he']
        · rw [hfe] at he'
          simp only [Option.some.injEq] at he'
          exact herr e' (by rw [hfe, he'])
      · intro hfe
        simp only at hfe
        rcases hfe' : s.firstErr with _ | e0 <;> rw [hfe'] at hfe <;> simp at hfe
  case _ k heq =>
    -- running task consuming one suspension step
    obtain ⟨hlt, hget⟩ := List.getElem?_eq_some_iff.mp heq
    refine ⟨by simpa using hst, hdl, ?_, ?_, herr, ?_⟩
    · have hpos : 0 < countRunning s.status := by
        refine List.countP_pos_iff.mpr ⟨s.status[i], List.getElem_mem hlt, ?_⟩
        rw [hget]; rfl
      simp only [countRunning] at hsem hpos ⊢
      rw [List.countP_set _ _ _ _ hlt, hget]
      simp
      omega
    · intro j v hj hv
      by_cases hij : i = j
      · subst hij
        rw [List.getElem?_set] at hj
        simp [hlt] at hj
      · rw [List.getElem?_set_ne hij] at hj
        exact hdone j v hj hv
    · intro hfe j hj
      by_cases hij : i = j
      · subst hij
        rw [List.getElem?_set] at hj
        simp [hlt] at hj
      · rw [List.getElem?_set_ne hij] at hj
        exact hnoerr hfe j hj
  case _ =>
    exact ⟨hst, hdl, hsem, hdone, herr, hnoerr⟩

theorem machineInv_foldl (c : Nat) (outs : List (Except PyErr (List Py))) (durs : List Nat)
    (sched : List Nat) (s : MState) (h : MachineInv c outs s) :
    MachineInv c outs (sched.foldl (machine_step outs durs) s) := by
  induction sched generalizing s with
  | nil => exact h
  | cons i rest ih => exact ih _ (machineInv_step c outs durs s i h)

theorem machineInv_run (cfg : ConcurrentProcessor) (behs : List ItemBeh) (sched : List Nat) :
    MachineInv cfg.concurrency (behs.map (itemOutcome cfg)) (run_machine cfg behs sched) := by
  unfold run_machine
  refine machineInv_foldl _ _ _ _ _ ?_
  have hlen : behs.length = (behs.map (itemOutcome cfg)).length := (List.length_map _ _).symm
  rw [hlen]
  exact machineInv_init cfg _

theorem TStatus.isDone_iff (t : TStatus) : t.isDone = true ↔ t = .done := by
  cases t <;> simp [TStatus.isDone]

theorem status_done_of_allDone (s : MState) (h : allDone s = true) (i : Nat)
    (hi : i < s.status.length) : s.status[i]? = some .done := by
  rw [List.getElem?_eq_getElem hi,
    (TStatus.isDone_iff _).mp (List.all_eq_true.mp h _ (List.getElem_mem hi))]

theorem itemContribution_eq (cfg : ConcurrentProcessor) (b : ItemBeh) :
    itemContribution cfg b = filterNotNone (okValueD (itemOutcome cfg b)) := by
  rw [itemContribution]
  rcases h : itemOutcome cfg b with e | v <;> simp [h, okValueD, filterNotNone]

theorem process_singleton_error (cfg : ConcurrentProcessor) (b : ItemBeh) (e : PyErr)
    (sched : List Nat)
    (hout : itemOutcome cfg b = .error e)
    (hdone : allDone (run_machine cfg [b] sched) = true) :
    cfg.process [b] sched = .error e := by
  have hne : ¬ ([b] : List ItemBeh).isEmpty = true := by simp
  have hinv := machineInv_run cfg [b] sched
  set s := run_machine cfg [b] sched with hs
  rcases hfei : s.firstErr with _ | e'
  · exfalso
    have hsd := status_done_of_allDone s hdone 0 (by rw [hinv.hst]; simp)
    have hok := hinv.hnoerr hfei 0 hsd
    rw [List.getD_eq_getElem?_getD] at hok
    simp [hout, isOkB] at hok
  · obtain ⟨j, hj⟩ := hinv.herr e' hfei
    rw [ConcurrentProcessor.process, if_neg hne, ← hs]
    simp only [hfei]
    rcases j with _ | j'
    · simp only [List.map_cons, List.map_nil, List.getElem?_cons_zero, hout,
        Option.some.injEq, Except.error.injEq] at hj
      rw [hj]
    · simp at hj

/-- C1: for every input sequence, every transform behaviour and every
scheduler interleaving under which all tasks complete, the sequence
`process` returns is exactly the concatenation, in input order, of each
item's normalized, `None`-filtered result sequence; the right-hand side
does not mention the schedule, so concurrent completion timing never
affects element placement. -/
theorem process_order_preserving (cfg : ConcurrentProcessor) (behs : List ItemBeh)
    (sched : List Nat)
    (hdone : allDone (run_machine cfg behs sched) = true)
    (hok : (behs.map (itemOutcome cfg)).all isOkB = true) :
    cfg.process behs sched = .ok ((behs.map (itemContribution cfg)).flatten) := by
  by_cases hempty : behs.isEmpty
  · rw [ConcurrentProcessor.process, if_pos hempty]
    rw [List.isEmpty_iff] at hempty
    subst hempty
    rfl
  · rw [ConcurrentProcessor.process, if_neg hempty]
    have hinv := machineInv_run cfg behs sched
    set outs := behs.map (itemOutcome cfg) with houts
    set s := run_machine cfg behs sched with hs
    have hfe : s.firstErr = Option.none := by
      rcases hfei : s.firstErr with _ | e
      · rfl
      · obtain ⟨j, hj⟩ := hinv.herr e hfei
        obtain ⟨hjl, hje⟩ := List.getElem?_eq_some_iff.mp hj
        have := List.all_eq_true.mp hok _ (hje ▸ List.getElem_mem hjl)
        simp [isOkB] at this
    simp only [hfe]
    have hdict : s.results_dict.map (fun o => o.getD []) = outs.map okValueD := by
      apply List.ext_getElem?
      intro n
      rw [List.getElem?_map, List.getElem?_map]
      by_cases hn : n < outs.length
      · have hsd := status_done_of_allDone s hdone n (by rw [hinv.hst]; exact hn)
        have hon : outs[n]? = some outs[n] := List.getElem?_eq_getElem hn
        have hokn := List.all_eq_true.mp hok _ (List.getElem_mem hn)
        rcases hoval : outs[n] with e | v
        · rw [hoval] at hokn
          simp [isOkB] at hokn
        · have hgetD : outs.getD n (.ok []) = .ok v := by
            rw [List.getD_eq_getElem?_getD, hon, hoval]
            rfl
          rw [hinv.hdone n v hsd hgetD, hon, hoval]
          rfl
      · have h1 : s.results_dict[n]? = Option.none :=
          List.getElem?_eq_none (by rw [hinv.hdl]; omega)
        have h2 : outs[n]? = Option.none := List.getElem?_eq_none (by omega)
        rw [h1, h2]
        rfl
    rw [hdict]
    congr 1
    rw [filterNotNone, List.filter_flatten, houts, List.map_map, List.map_map]
    refine congrArg List.flatten (List.map_congr_left ?_)
    intro b _
    rw [itemContribution_eq, filterNotNone]
    rfl

/-- C1 witness: two items, one returning a list with an embedded `None`,
run under concurrency 2 to completion. -/
theorem process_order_preserving_witness :
    ConcurrentProcessor.process ⟨2, 3, 0, 0, .allExceptions⟩
      [⟨fun _ => .ok (.list [.int 1, .none]), 0⟩, ⟨fun _ => .ok (.int 2), 0⟩]
      [0, 0, 1, 1] = .ok [.int 1, .int 2] :=
  process_order_preserving ⟨2, 3, 0, 0, .allExceptions⟩
    [⟨fun _ => .ok (.list [.int 1, .none]), 0⟩, ⟨fun _ => .ok (.int 2), 0⟩]
    [0, 0, 1, 1] rfl rfl

/-- C2: whenever some item's transformation ultimately fails (its
limiter-level outcome is an error), a completed `process` call raises —
its result is an error that is itself one of the items' outcomes — so no
partial sequence of the other items' successes is ever returned. -/
theorem process_atomic_failure (cfg : ConcurrentProcessor) (behs : List ItemBeh)
    (sched : List Nat)
    (hdone : allDone (run_machine cfg behs sched) = true)
    (hfail : (behs.map (itemOutcome cfg)).all isOkB = false) :
    ∃ e : PyErr, cfg.process behs sched = .error e ∧
      Except.error e ∈ behs.map (itemOutcome cfg) := by
  have hne : ¬ behs.isEmpty = true := by
    intro h
    rw [List.isEmpty_iff] at h
    subst h
    simp at hfail
  have hinv := machineInv_run cfg behs sched
  set outs := behs.map (itemOutcome cfg) with houts
  set s := run_machine cfg behs sched with hs
  rcases hfei : s.firstErr with _ | e
  · exfalso
    obtain ⟨o, hmem, hno⟩ := List.all_eq_false.mp hfail
    obtain ⟨j, hj, hjo⟩ := List.mem_iff_getElem.mp hmem
    have hsd := status_done_of_allDone s hdone j (by rw [hinv.hst]; exact hj)
    have hok := hinv.hnoerr hfei j hsd
    rw [List.getD_eq_getElem?_getD, List.getElem?_eq_getElem hj] at hok
    rw [hjo] at hok
    exact hno hok
  · refine ⟨e, ?_, ?_⟩
    · rw [ConcurrentProcessor.process, if_neg hne, ← hs]
      simp only [hfei]
    · obtain ⟨j, hj⟩ := hinv.herr e hfei
      obtain ⟨hjl, hje⟩ := List.getElem?_eq_some_iff.mp hj
      exact hje ▸ List.getElem_mem hjl

/-- C2 witness: items `[ok, fail]` under concurrency 2; `process` raises
the failing item's error instead of returning the partial result. -/
theorem process_atomic_failure_witness :
    ∃ e : PyErr, ConcurrentProcessor.process ⟨2, 1, 0, 0, .allExceptions⟩
      [⟨fun _ => .ok (.int 1), 0⟩, ⟨fun _ => .raise (.exc 7 true Option.none), 0⟩]
      [0, 0, 1, 1] = .error e ∧
      Except.error e ∈
        ([⟨fun _ => .ok (.int 1), 0⟩, ⟨fun _ => .raise (.exc 7 true Option.none), 0⟩] :
          List ItemBeh).map (itemOutcome ⟨2, 1, 0, 0, .allExceptions⟩) :=
  process_atomic_failure ⟨2, 1, 0, 0, .allExceptions⟩
    [⟨fun _ => .ok (.int 1), 0⟩, ⟨fun _ => .raise (.exc 7 true Option.none), 0⟩]
    [0, 0, 1, 1] rfl rfl

/-- C3: after any scheduler interleaving whatsoever, the number of tasks
past the admission gate — i.e. transform invocations currently executing
— never exceeds the configured `concurrency`; tasks beyond the bound are
scheduled but blocked on the semaphore. -/
theorem concurrency_bound (cfg : ConcurrentProcessor) (behs : List ItemBeh)
    (sched : List Nat) :
    countRunning (run_machine cfg behs sched).status ≤ cfg.concurrency := by
  have h := (machineInv_run cfg behs sched).hsem
  omega

/-- C9: on the empty input sequence `process` returns the empty sequence
for every configuration and schedule, and the transform is invoked zero
times in total. -/
theorem process_empty_input (cfg : ConcurrentProcessor) (sched : List Nat) :
    cfg.process [] sched = .ok [] ∧ totalCalls cfg [] = 0 :=
  ⟨rfl, rfl⟩

theorem retry_go_all_fail (spec : RetrySpec) (wmin wmax : Nat) (g : Nat → AttemptOutcome α)
    (es : Nat → PyErr) :
    ∀ (r a : Nat) (waits : List Nat),
      (∀ n, a ≤ n → n ≤ a + r → g n = .raise (es n) ∧ retryCheck spec (es n) = true) →
      ∃ ws : List Nat, retry_go spec wmin wmax g a r waits =
        ⟨.error (.retryErr (es (a + r))), a + r, ws⟩ := by
  intro r
  induction r with
  | zero =>
    intro a waits hall
    obtain ⟨hg, hc⟩ := hall a (le_refl a) (by omega)
    refine ⟨waits, ?_⟩
    rw [Nat.add_zero]
    rw [retry_go, hg]
    simp only [hc, if_true]
  | succ r ih =>
    intro a waits hall
    obtain ⟨hg, hc⟩ := hall a (le_refl a) (by omega)
    obtain ⟨ws, hws⟩ := ih (a + 1) (waits ++ [wait_exponential wmin wmax a])
      (fun n h1 h2 => hall n (by omega) (by omega))
    refine ⟨ws, ?_⟩
    rw [retry_go, hg]
    simp only [hc, if_true]
    have harith : a + 1 + r = a + (r + 1) := by omega
    rw [harith] at hws
    exact hws

theorem retry_go_fail_then_ok (spec : RetrySpec) (wmin wmax : Nat) (g : Nat → AttemptOutcome α)
    (es : Nat → PyErr) (v : α) :
    ∀ (k a r : Nat) (waits : List Nat), k ≤ r →
      (∀ n, a ≤ n → n < a + k → g n = .raise (es n) ∧ retryCheck spec (es n) = true) →
      g (a + k) = .ok v →
      ∃ ws : List Nat, retry_go spec wmin wmax g a r waits = ⟨.ok v, a + k, ws⟩ := by
  intro k
  induction k with
  | zero =>
    intro a r waits _ _ hok
    rw [Nat.add_zero] at hok ⊢
    exact ⟨waits, by rw [retry_go, hok]⟩
  | succ k ih =>
    intro a r waits hkr hfail hok
    obtain ⟨hg, hc⟩ := hfail a (le_refl a) (by omega)
    rcases r with _ | r'
    · omega
    have hok' : g (a + 1 + k) = .ok v := by
      have harith : a + 1 + k = a + (k + 1) := by omega
      rw [harith]
      exact hok
    obtain ⟨ws, hws⟩ := ih (a + 1) r' (waits ++ [wait_exponential wmin wmax a]) (by omega)
      (fun n h1 h2 => hfail n (by omega) (by omega)) hok'
    refine ⟨ws, ?_⟩
    rw [retry_go, hg]
    simp only [hc, if_true]
    have harith : a + 1 + k = a + (k + 1) := by omega
    rw [harith] at hws
    exact hws

/-- C4: when an item's transform raises a retryable error on every one of
its `max_retries` attempts, the error raised for the item is the item's
own last failure — tenacity's `RetryError` wrapper is unwrapped to its
`__cause__` — the transform ran exactly `max_retries` times, and a
completed `process` call on that item raises exactly that last failure;
moreover a grouped failure is unwrapped to a single representative member,
preferring that member's original `__cause__` over the wrapper. -/
theorem retry_exhaustion_propagates_last (cfg : ConcurrentProcessor) (es : Nat → PyErr)
    (f : Nat → AttemptOutcome Py)
    (hmax : 1 ≤ cfg.max_retries)
    (hf : ∀ n, 1 ≤ n → n ≤ cfg.max_retries →
      f n = .raise (es n) ∧ retryCheck cfg.retry_exceptions (es n) = true) :
    (process_item cfg f).outcome = .error (es cfg.max_retries) ∧
    (process_item cfg f).calls = cfg.max_retries ∧
    (∀ k rest, ∀ c : PyErr,
      limiter_reraise (.excGroup (.exc k true (some c)) rest) = c) ∧
    (∀ k rest, limiter_reraise (.excGroup (.exc k true Option.none) rest) =
      .exc k true Option.none) ∧
    (∀ d sched, allDone (run_machine cfg [⟨f, d⟩] sched) = true →
      cfg.process [⟨f, d⟩] sched = .error (es cfg.max_retries)) := by
  have hwrap : ∀ n, 1 ≤ n → n ≤ 1 + (cfg.max_retries - 1) →
      wrapped_attempts f n = .raise (es n) ∧ retryCheck cfg.retry_exceptions (es n) = true := by
    intro n h1 h2
    obtain ⟨ha, hb⟩ := hf n h1 (by omega)
    exact ⟨by rw [wrapped_attempts, ha], hb⟩
  obtain ⟨ws, hws⟩ := retry_go_all_fail cfg.retry_exceptions cfg.retry_min_wait
    cfg.retry_max_wait (wrapped_attempts f) es (cfg.max_retries - 1) 1 [] hwrap
  have hfinal : 1 + (cfg.max_retries - 1) = cfg.max_retries := by omega
  rw [hfinal] at hws
  have houtc : (process_item cfg f).outcome = .error (es cfg.max_retries) := by
    simp only [process_item, process_with_retry, hws]
    rfl
  refine ⟨houtc, ?_, fun k rest c => rfl, fun k rest => rfl, ?_⟩
  · simp only [process_item, process_with_retry, hws]
  · intro d sched hdone
    exact process_singleton_error cfg ⟨f, d⟩ _ sched houtc hdone

/-- C4 witness: the transform raises `exc n` on attempt `n`; with two
total attempts, `process_item` surfaces `exc 2`, the last failure, after
exactly two calls. -/
theorem retry_exhaustion_propagates_last_witness :
    (process_item ⟨1, 2, 0, 0, .allExceptions⟩
        (fun n => .raise (.exc n true Option.none))).outcome =
      .error (.exc 2 true Option.none) ∧
    (process_item ⟨1, 2, 0, 0, .allExceptions⟩
        (fun n => .raise (.exc n true Option.none))).calls = 2 ∧
    ConcurrentProcessor.process ⟨1, 2, 0, 0, .allExceptions⟩
      [⟨fun n => .raise (.exc n true Option.none), 0⟩] [0, 0] =
      .error (.exc 2 true Option.none) :=
  have h := retry_exhaustion_propagates_last ⟨1, 2, 0, 0, .allExceptions⟩
    (fun n => .exc n true Option.none) (fun n => .raise (.exc n true Option.none))
    (by decide) (fun n h1 h2 => ⟨rfl, rfl⟩)
  ⟨h.1, h.2.1, h.2.2.2.2 0 [0, 0] rfl⟩

/-- C5: a transform raising an error whose kind fails the
`retry_if_exception_type` check is invoked exactly once: no retry attempt
is consumed, no backoff wait is performed, and the error propagates at
once through the limiter's re-raise (which leaves a plain, cause-free
exception unchanged). -/
theorem non_retryable_short_circuits (cfg : ConcurrentProcessor) (e : PyErr)
    (f : Nat → AttemptOutcome Py)
    (hf : f 1 = .raise e)
    (hnr : retryCheck cfg.retry_exceptions e = false) :
    (process_item cfg f).calls = 1 ∧
    (process_item cfg f).waits = [] ∧
    (process_item cfg f).outcome = .error (limiter_reraise e) ∧
    (∀ k b, e = .exc k b Option.none → (process_item cfg f).outcome = .error e) := by
  have hrun : process_with_retry cfg (wrapped_attempts f) = ⟨.error e, 1, []⟩ := by
    rw [process_with_retry, retry_go]
    rw [show wrapped_attempts f 1 = .raise e by rw [wrapped_attempts, hf]]
    simp [hnr]
  refine ⟨?_, ?_, ?_, ?_⟩
  · simp only [process_item, hrun]
  · simp only [process_item, hrun]
  · simp only [process_item, hrun]
    rfl
  · intro k b he
    simp only [process_item, hrun]
    subst he
    cases b <;> rfl

/-- C5 witness: with retryable kinds `{3}`, an error of kind 7 is raised
once, with no waits, and propagates as itself. -/
theorem non_retryable_short_circuits_witness :
    (process_item ⟨1, 5, 0, 0, .kinds [3]⟩
        (fun _ => .raise (.exc 7 true Option.none))).calls = 1 ∧
    (process_item ⟨1, 5, 0, 0, .kinds [3]⟩
        (fun _ => .raise (.exc 7 true Option.none))).waits = [] ∧
    (process_item ⟨1, 5, 0, 0, .kinds [3]⟩
        (fun _ => .raise (.exc 7 true Option.none))).outcome =
      .error (.exc 7 true Option.none) :=
  have h := non_retryable_short_circuits ⟨1, 5, 0, 0, .kinds [3]⟩
    (.exc 7 true Option.none) (fun _ => .raise (.exc 7 true Option.none)) rfl rfl
  ⟨h.1, h.2.1, h.2.2.2 7 true rfl⟩

/-- C6: `max_retries` counts total attempts including the first.  A
transform that raises a retryable error on its first `k < max_retries`
calls and succeeds on the next call makes `process_item` return that
call's normalized result, with the transform invoked exactly `k + 1`
times. -/
theorem retry_then_succeed (cfg : ConcurrentProcessor) (k : Nat) (es : Nat → PyErr)
    (f : Nat → AttemptOutcome Py) (v : Py)
    (hk : k < cfg.max_retries)
    (hfail : ∀ n, 1 ≤ n → n ≤ k →
      f n = .raise (es n) ∧ retryCheck cfg.retry_exceptions (es n) = true)
    (hsucc : f (k + 1) = .ok v) :
    (process_item cfg f).outcome = .ok (wrapped_call v) ∧
    (process_item cfg f).calls = k + 1 := by
  have hwrap : ∀ n, 1 ≤ n → n < 1 + k →
      wrapped_attempts f n = .raise (es n) ∧ retryCheck cfg.retry_exceptions (es n) = true := by
    intro n h1 h2
    obtain ⟨ha, hb⟩ := hfail n h1 (by omega)
    exact ⟨by rw [wrapped_attempts, ha], hb⟩
  have hok : wrapped_attempts f (1 + k) = .ok (wrapped_call v) := by
    rw [wrapped_attempts, show 1 + k = k + 1 by omega, hsucc]
  obtain ⟨ws, hws⟩ := retry_go_fail_then_ok cfg.retry_exceptions cfg.retry_min_wait
    cfg.retry_max_wait (wrapped_attempts f) es (wrapped_call v) k 1 (cfg.max_retries - 1) []
    (by omega) hwrap hok
  rw [show 1 + k = k + 1 by omega] at hws
  refine ⟨?_, ?_⟩
  · simp only [process_item, process_with_retry, hws]
    rfl
  · simp only [process_item, process_with_retry, hws]

/-- C6 witness: failure on attempt 1, success on attempt 2, with three
total attempts allowed: result `[int 4]` after exactly two calls. -/
theorem retry_then_succeed_witness :
    (process_item ⟨1, 3, 0, 0, .allExceptions⟩
        (fun n => if n ≤ 1 then .raise (.exc 0 true Option.none) else .ok (.int 4))).outcome =
      .ok [.int 4] ∧
    (process_item ⟨1, 3, 0, 0, .allExceptions⟩
        (fun n => if n ≤ 1 then .raise (.exc 0 true Option.none) else .ok (.int 4))).calls = 2 :=
  retry_then_succeed ⟨1, 3, 0, 0, .allExceptions⟩ 1 (fun _ => .exc 0 true Option.none)
    (fun n => if n ≤ 1 then .raise (.exc 0 true Option.none) else .ok (.int 4)) (.int 4)
    (by decide)
    (by
      intro n h1 h2
      have hn : n = 1 := by omega
      subst hn
      exact ⟨rfl, rfl⟩)
    rfl

/-- C8: a severe signal — a `BaseException` that is not an `Exception`,
like a cancellation/interrupt — is never retried (one invocation, no
backoff), is never reclassified or cause-unwrapped by the limiter's
re-raise, and terminates the whole `process` call with exactly that
signal. -/
theorem severe_signal_propagates (cfg : ConcurrentProcessor) (k : Nat) (cause : Option PyErr)
    (f : Nat → AttemptOutcome Py) (d : Nat) (sched : List Nat)
    (hf : f 1 = .raise (.exc k false cause))
    (hdone : allDone (run_machine cfg [⟨f, d⟩] sched) = true) :
    (process_item cfg f).calls = 1 ∧
    (process_item cfg f).waits = [] ∧
    (process_item cfg f).outcome = .error (.exc k false cause) ∧
    cfg.process [⟨f, d⟩] sched = .error (.exc k false cause) := by
  have hnr : retryCheck cfg.retry_exceptions (.exc k false cause) = false := by
    cases hsp : cfg.retry_exceptions with
    | allExceptions => rfl
    | kinds ks => rfl
  have hrun : process_with_retry cfg (wrapped_attempts f) =
      ⟨.error (.exc k false cause), 1, []⟩ := by
    rw [process_with_retry, retry_go]
    rw [show wrapped_attempts f 1 = .raise (.exc k false cause) by rw [wrapped_attempts, hf]]
    simp [hnr]
  have houtc : (process_item cfg f).outcome = .error (.exc k false cause) := by
    simp only [process_item, hrun]
    rfl
  refine ⟨by simp only [process_item, hrun], by simp only [process_item, hrun], houtc, ?_⟩
  exact process_singleton_error cfg ⟨f, d⟩ _ sched houtc hdone

/-- C8 witness: a non-`Exception` signal of kind 9 raised on the first
call: one invocation, no waits, the signal itself propagates and the
whole call fails with it. -/
theorem severe_signal_propagates_witness :
    (process_item ⟨1, 3, 0, 0, .allExceptions⟩
        (fun _ => .raise (.exc 9 false Option.none))).calls = 1 ∧
    (process_item ⟨1, 3, 0, 0, .allExceptions⟩
        (fun _ => .raise (.exc 9 false Option.none))).waits = [] ∧
    (process_item ⟨1, 3, 0, 0, .allExceptions⟩
        (fun _ => .raise (.exc 9 false Option.none))).outcome =
      .error (.exc 9 false Option.none) ∧
    ConcurrentProcessor.process ⟨1, 3, 0, 0, .allExceptions⟩
      [⟨fun _ => .raise (.exc 9 false Option.none), 0⟩] [0, 0] =
      .error (.exc 9 false Option.none) :=
  severe_signal_propagates ⟨1, 3, 0, 0, .allExceptions⟩ 9 Option.none
    (fun _ => .raise (.exc 9 false Option.none)) 0 [0, 0] rfl rfl

/-- C7: `_wrapped_call` normalizes every transform return value before
flattening: `None` becomes the empty sequence, a list or tuple (empty
included) is used as-is, a string becomes the one-element sequence
holding that string (never decomposed into characters), and any other
single value — so also a bare scalar, a one-element list and a
one-element tuple holding the same value — contributes the identical
one-element sequence. -/
theorem wrapped_call_normalizes :
    wrapped_call Py.none = [] ∧
    (∀ xs, wrapped_call (.list xs) = xs) ∧
    (∀ xs, wrapped_call (.tuple xs) = xs) ∧
    (∀ s, wrapped_call (.str s) = [.str s]) ∧
    (∀ v, isListOrTuple v = false → v ≠ Py.none →
      wrapped_call v = [v] ∧ wrapped_call (.list [v]) = [v] ∧
        wrapped_call (.tuple [v]) = [v]) := by
  refine ⟨rfl, fun xs => rfl, fun xs => rfl, fun s => rfl, ?_⟩
  intro v hseq hnone
  refine ⟨?_, rfl, rfl⟩
  cases v with
  | none => exact absurd rfl hnone
  | str s => rfl
  | int n => rfl
  | list xs => exact absurd hseq (by simp [isListOrTuple])
  | tuple xs => exact absurd hseq (by simp [isListOrTuple])
  | obj t => rfl

/-- C7 witness: the bare scalar `int 5`, the one-element list `[int 5]`
and the one-element tuple `(int 5,)` all normalize to `[int 5]`. -/
theorem wrapped_call_normalizes_witness :
    wrapped_call (.int 5) = [.int 5] ∧ wrapped_call (.list [.int 5]) = [.int 5] ∧
      wrapped_call (.tuple [.int 5]) = [.int 5] :=
  wrapped_call_normalizes.2.2.2.2 (.int 5) rfl (fun h => Py.noConfusion h)

/-- C10: constructing the processor with the empty `retry_exceptions`
tuple stores the same configuration as passing `None` — the falsy empty
tuple silently falls back to `(Exception,)` — so for every constructor
argument the stored retryable set matches at least one error: zero
retryable kinds cannot be configured through `__init__`. -/
theorem empty_retry_tuple_falls_back :
    (∀ c m w W, ConcurrentProcessor.init c m w W (some []) =
        ConcurrentProcessor.init c m w W Option.none) ∧
    (∀ c m w W, (ConcurrentProcessor.init c m w W Option.none).retry_exceptions =
        .allExceptions) ∧
    (∀ c m w W arg, ∃ e : PyErr,
        retryCheck (ConcurrentProcessor.init c m w W arg).retry_exceptions e = true) := by
  refine ⟨fun c m w W => rfl, fun c m w W => rfl, ?_⟩
  intro c m w W arg
  rcases arg with _ | ks
  · exact ⟨.exc 0 true Option.none, rfl⟩
  · rcases ks with _ | ⟨k, ks'⟩
    · exact ⟨.exc 0 true Option.none, rfl⟩
    · refine ⟨.exc k true Option.none, ?_⟩
      simp [ConcurrentProcessor.init, mkRetryExceptions, retryCheck, PyErr.kindOf]
      rfl
